import Mathlib

/-
Verification of the ideal generic (Geyer/Mei unit-sphere) camera model.

The camera stores nine scalars in a fixed positional layout
  data = [fx, fy, u0, v0, epsilon, width, height, r1, r2]
and exposes named accessors over that layout.  The projection routines
(forward, inverse), the validity predicates (pixelValidSquare,
pixelValidCircular), the viewport rescaling (resizeViewport) and the
serialized key/value record (serialize) are embedded below as functions
over the real numbers, following the source code line by line.
-/

namespace camera

/-- Three-component point/ray-direction vector (the PointT of the code). -/
structure PointT where
  x : ℝ
  y : ℝ
  z : ℝ

namespace PointT

/-- Squared Euclidean norm of a 3-vector. -/
def normSq (v : PointT) : ℝ := v.x ^ 2 + v.y ^ 2 + v.z ^ 2

/-- Euclidean norm of a 3-vector. -/
noncomputable def norm (v : PointT) : ℝ := Real.sqrt v.normSq

/-- Eigen's normalized(): divide each component by the Euclidean norm. -/
noncomputable def normalized (v : PointT) : PointT :=
  ⟨v.x / v.norm, v.y / v.norm, v.z / v.norm⟩

/-- Scalar multiple of a 3-vector. -/
def smul (c : ℝ) (v : PointT) : PointT := ⟨c * v.x, c * v.y, c * v.z⟩

end PointT

/-- The camera model: nine scalar parameters in their positional storage
order (the 9-vector the code calls the complex type). -/
structure IdealGenericCameraModel where
  data : Fin 9 → ℝ

namespace IdealGenericCameraModel

/-- Parameter count of the model (NumParameters in the code). -/
def NumParameters : ℕ := 9

/-- Leading parameter subset exposed to calibration (NumParameters - 4). -/
def ParametersToOptimize : ℕ := NumParameters - 4

-- Named accessors over the positional layout, as in the code.
def fx (ccd : IdealGenericCameraModel) : ℝ := ccd.data 0
def fy (ccd : IdealGenericCameraModel) : ℝ := ccd.data 1
def u0 (ccd : IdealGenericCameraModel) : ℝ := ccd.data 2
def v0 (ccd : IdealGenericCameraModel) : ℝ := ccd.data 3
def epsilon (ccd : IdealGenericCameraModel) : ℝ := ccd.data 4
def width (ccd : IdealGenericCameraModel) : ℝ := ccd.data 5
def height (ccd : IdealGenericCameraModel) : ℝ := ccd.data 6
def r1 (ccd : IdealGenericCameraModel) : ℝ := ccd.data 7
def r2 (ccd : IdealGenericCameraModel) : ℝ := ccd.data 8

-- Named setters, each writing one slot of the positional layout.
def set_fx (ccd : IdealGenericCameraModel) (v : ℝ) : IdealGenericCameraModel :=
  ⟨Function.update ccd.data 0 v⟩
def set_fy (ccd : IdealGenericCameraModel) (v : ℝ) : IdealGenericCameraModel :=
  ⟨Function.update ccd.data 1 v⟩
def set_u0 (ccd : IdealGenericCameraModel) (v : ℝ) : IdealGenericCameraModel :=
  ⟨Function.update ccd.data 2 v⟩
def set_v0 (ccd : IdealGenericCameraModel) (v : ℝ) : IdealGenericCameraModel :=
  ⟨Function.update ccd.data 3 v⟩
def set_epsilon (ccd : IdealGenericCameraModel) (v : ℝ) : IdealGenericCameraModel :=
  ⟨Function.update ccd.data 4 v⟩
def set_width (ccd : IdealGenericCameraModel) (v : ℝ) : IdealGenericCameraModel :=
  ⟨Function.update ccd.data 5 v⟩
def set_height (ccd : IdealGenericCameraModel) (v : ℝ) : IdealGenericCameraModel :=
  ⟨Function.update ccd.data 6 v⟩
def set_r1 (ccd : IdealGenericCameraModel) (v : ℝ) : IdealGenericCameraModel :=
  ⟨Function.update ccd.data 7 v⟩
def set_r2 (ccd : IdealGenericCameraModel) (v : ℝ) : IdealGenericCameraModel :=
  ⟨Function.update ccd.data 8 v⟩

end IdealGenericCameraModel

/-- The ordered-argument constructor: it fills the storage vector in the
order fx, fy, u0, v0, epsilon, w, h, r1, r2. -/
def mkModel (fx fy u0 v0 epsilon w h r1 r2 : ℝ) : IdealGenericCameraModel :=
  ⟨![fx, fy, u0, v0, epsilon, w, h, r1, r2]⟩

/-- The default constructor: all nine parameters zero. -/
def defaultModel : IdealGenericCameraModel := ⟨fun _ => 0⟩

namespace IdealGenericCameraModel

/-- Unprojection: pixel (x, y) to a ray direction, exactly the arithmetic of
the code (inverse intrinsics, then the closed-form inverse perspective). -/
noncomputable def inverse (ccd : IdealGenericCameraModel) (x y : ℝ) : PointT :=
  let mx := (x - ccd.u0) / ccd.fx
  let my := (y - ccd.v0) / ccd.fy
  let x2 := mx * mx
  let y2 := my * my
  let eps2 := ccd.epsilon * ccd.epsilon
  let term := (ccd.epsilon + Real.sqrt (1 + (1 - eps2) * (x2 + y2))) / (x2 + y2 + 1)
  ⟨term * mx, term * my, term - ccd.epsilon⟩

/-- Projection: normalize the input ray, project under the unit-sphere model,
then apply the affine intrinsics, exactly as the code does. -/
noncomputable def forward (ccd : IdealGenericCameraModel) (tmp_pt : PointT) : ℝ × ℝ :=
  let unit_pt := tmp_pt.normalized
  let px := unit_pt.x / (unit_pt.z + ccd.epsilon)
  let py := unit_pt.y / (unit_pt.z + ccd.epsilon)
  (ccd.fx * px + ccd.u0, ccd.fy * py + ccd.v0)

/-- Closed form of the unprojection as the specification words it:
mx, my, s, term, and the direction (term mx, term my, term - epsilon). -/
noncomputable def inverseSpecForm (ccd : IdealGenericCameraModel) (x y : ℝ) : PointT :=
  let mx := (x - ccd.u0) / ccd.fx
  let my := (y - ccd.v0) / ccd.fy
  let s := mx ^ 2 + my ^ 2
  let term := (ccd.epsilon + Real.sqrt (1 + (1 - ccd.epsilon ^ 2) * s)) / (s + 1)
  ⟨term * mx, term * my, term - ccd.epsilon⟩

/-- Guarded unprojection: every division checks its divisor and the square
root checks its argument; an unmet guard yields none.  Used to show which
guards can actually fire. -/
noncomputable def inverseChecked (ccd : IdealGenericCameraModel) (x y : ℝ) :
    Option PointT :=
  if ccd.fx = 0 then none else
  if ccd.fy = 0 then none else
  let mx := (x - ccd.u0) / ccd.fx
  let my := (y - ccd.v0) / ccd.fy
  let x2 := mx * mx
  let y2 := my * my
  let eps2 := ccd.epsilon * ccd.epsilon
  if 1 + (1 - eps2) * (x2 + y2) < 0 then none else
  if x2 + y2 + 1 = 0 then none else
  let term := (ccd.epsilon + Real.sqrt (1 + (1 - eps2) * (x2 + y2))) / (x2 + y2 + 1)
  some ⟨term * mx, term * my, term - ccd.epsilon⟩

/-- Rectangular validity mask, exactly the conditional of the code. -/
noncomputable def pixelValidSquare (ccd : IdealGenericCameraModel) (x y : ℝ) : Bool :=
  if x ≥ 0 ∧ x < ccd.width ∧ y ≥ 0 ∧ y < ccd.height then true else false

/-- Circular validity mask, exactly the two-branch conditional of the code. -/
noncomputable def pixelValidCircular (ccd : IdealGenericCameraModel) (x y : ℝ) : Bool :=
  if ccd.r1 ≤ 0 then
    let x2 := (x - ccd.u0) * (x - ccd.u0)
    let y2 := (y - ccd.v0) * (y - ccd.v0)
    if x2 + y2 < ccd.r2 * ccd.r2 then true else false
  else
    let x2 := (x - ccd.u0) * (x - ccd.u0)
    let y2 := (y - ccd.v0) * (y - ccd.v0)
    let r12 := ccd.r1 * ccd.r1
    let r22 := ccd.r2 * ccd.r2
    if x2 + y2 > r12 ∧ x2 + y2 < r22 then true else false

/-- Viewport rescaling: ratios from the pre-mutation width/height, then the
source's sequence of setter calls. -/
noncomputable def resizeViewport (ccd : IdealGenericCameraModel)
    (new_width new_height : ℝ) : IdealGenericCameraModel :=
  let xr := new_width / ccd.width
  let yr := new_height / ccd.height
  let rr := min xr yr
  let c1 := set_fx ccd (ccd.fx * xr)
  let c2 := set_fy c1 (c1.fy * yr)
  let c3 := set_u0 c2 (c2.u0 * xr)
  let c4 := set_v0 c3 (c3.v0 * yr)
  let c5 := set_r1 c4 (c4.r1 * rr)
  let c6 := set_r2 c5 (c5.r2 * rr)
  let c7 := set_width c6 new_width
  set_height c7 new_height

/-- Serialized form: the key/value pairs the serializer receives, in emission
order; the value of each pair is the positional storage slot the code passes. -/
def serialize (ccd : IdealGenericCameraModel) : List (String × ℝ) :=
  [("fx", ccd.data 0), ("fy", ccd.data 1), ("u0", ccd.data 2), ("v0", ccd.data 3),
   ("epsilon", ccd.data 4), ("r1", ccd.data 5), ("r2", ccd.data 6),
   ("width", ccd.data 7), ("height", ccd.data 8)]

end IdealGenericCameraModel

/-- Concrete model used to test the serialized record: each slot holds its own
index, so every slot value is distinct. -/
noncomputable def slotModel : IdealGenericCameraModel := ⟨fun i => (i.val : ℝ)⟩

/-- Concrete model with fx = fy = 1, principal point at the origin and
epsilon = 1/2. -/
noncomputable def halfEpsModel : IdealGenericCameraModel := mkModel 1 1 0 0 (1/2) 0 0 0 0

/-- Concrete model from the end-to-end scenario of the specification. -/
noncomputable def scenarioModel : IdealGenericCameraModel :=
  mkModel 500 500 320 240 (1/2) 640 480 0 300



namespace IdealGenericCameraModel

-- Evaluation of the ordered-argument constructor at each accessor.
@[simp] theorem mkModel_fx (a b c d e f g h i : ℝ) : (mkModel a b c d e f g h i).fx = a := rfl
@[simp] theorem mkModel_fy (a b c d e f g h i : ℝ) : (mkModel a b c d e f g h i).fy = b := rfl
@[simp] theorem mkModel_u0 (a b c d e f g h i : ℝ) : (mkModel a b c d e f g h i).u0 = c := rfl
@[simp] theorem mkModel_v0 (a b c d e f g h i : ℝ) : (mkModel a b c d e f g h i).v0 = d := rfl
@[simp] theorem mkModel_epsilon (a b c d e f g h i : ℝ) :
    (mkModel a b c d e f g h i).epsilon = e := rfl
@[simp] theorem mkModel_width (a b c d e f g h i : ℝ) :
    (mkModel a b c d e f g h i).width = f := rfl
@[simp] theorem mkModel_height (a b c d e f g h i : ℝ) :
    (mkModel a b c d e f g h i).height = g := rfl
@[simp] theorem mkModel_r1 (a b c d e f g h i : ℝ) : (mkModel a b c d e f g h i).r1 = h := rfl
@[simp] theorem mkModel_r2 (a b c d e f g h i : ℝ) : (mkModel a b c d e f g h i).r2 = i := rfl

/-- C1 counterexample: on the model whose nine storage slots hold 0,...,8, the
serialized record does not pair every key with the identically-named
parameter: the entry under key r1 holds width() = 5, not r1() = 7. -/
theorem serialize_named_values_counterexample :
    ¬ (serialize slotModel =
      [("fx", slotModel.fx), ("fy", slotModel.fy), ("u0", slotModel.u0),
       ("v0", slotModel.v0), ("epsilon", slotModel.epsilon), ("r1", slotModel.r1),
       ("r2", slotModel.r2), ("width", slotModel.width), ("height", slotModel.height)]) := by
  intro hEq
  have h5 : slotModel.width = slotModel.r1 := by
    have := congrArg (fun l => (l.get? 5).map Prod.snd) hEq
    simpa [serialize, width, r1] using this
  simp only [slotModel, width, r1] at h5
  have h5n : (5 : ℕ) = 7 := by exact_mod_cast h5
  omega

/-- C1 (amended): the serialized record has exactly the nine keys fx, fy, u0,
v0, epsilon, r1, r2, width, height in that order; the values under the first
five keys are the identically-named parameters, while the value under key r1
is width(), under r2 is height(), under width is r1() and under height is
r2() (the storage slots 5..8 in positional order). -/
theorem serialize_record (ccd : IdealGenericCameraModel) :
    serialize ccd =
      [("fx", ccd.fx), ("fy", ccd.fy), ("u0", ccd.u0), ("v0", ccd.v0),
       ("epsilon", ccd.epsilon), ("r1", ccd.width), ("r2", ccd.height),
       ("width", ccd.r1), ("height", ccd.r2)] := rfl

/-- C7: pixelValidSquare holds exactly on 0 <= x < width and 0 <= y < height. -/
theorem pixelValidSquare_iff (ccd : IdealGenericCameraModel) (x y : ℝ) :
    pixelValidSquare ccd x y = true ↔
      (0 ≤ x ∧ x < ccd.width ∧ 0 ≤ y ∧ y < ccd.height) := by
  unfold pixelValidSquare
  split_ifs with h
  · simpa using h
  · simpa using h


/-- An if-then-else producing the Bool literals true/false equals true exactly
when its condition holds. -/
theorem ite_true_false_iff {P : Prop} [Decidable P] :
    (if P then (true : Bool) else false) = true ↔ P := by
  split_ifs with h <;> simp [h]

/-- C9: resizeViewport never changes the epsilon parameter (storage slot 4);
it writes only the eight slots fx, fy, u0, v0, r1, r2, width, height. -/
theorem resizeViewport_preserves_epsilon (ccd : IdealGenericCameraModel)
    (w2 h2 : ℝ) : (resizeViewport ccd w2 h2).epsilon = ccd.epsilon := rfl

/-- C6: resizeViewport computes the ratios from the pre-mutation width and
height and rescales fx, u0 by the x-ratio, fy, v0 by the y-ratio, r1, r2 by
the smaller ratio, then stores the new width and height. -/
theorem resizeViewport_spec (ccd : IdealGenericCameraModel) (w2 h2 : ℝ)
    (hw : ccd.width ≠ 0) (hh : ccd.height ≠ 0) :
    (resizeViewport ccd w2 h2).fx = ccd.fx * (w2 / ccd.width) ∧
    (resizeViewport ccd w2 h2).fy = ccd.fy * (h2 / ccd.height) ∧
    (resizeViewport ccd w2 h2).u0 = ccd.u0 * (w2 / ccd.width) ∧
    (resizeViewport ccd w2 h2).v0 = ccd.v0 * (h2 / ccd.height) ∧
    (resizeViewport ccd w2 h2).r1 = ccd.r1 * min (w2 / ccd.width) (h2 / ccd.height) ∧
    (resizeViewport ccd w2 h2).r2 = ccd.r2 * min (w2 / ccd.width) (h2 / ccd.height) ∧
    (resizeViewport ccd w2 h2).width = w2 ∧
    (resizeViewport ccd w2 h2).height = h2 :=
  ⟨rfl, rfl, rfl, rfl, rfl, rfl, rfl, rfl⟩

/-- C6 witness: the scenario model (width 640, height 480) resized to
1280 x 960 satisfies the eight equations of resizeViewport_spec. -/
theorem resizeViewport_spec_witness :
    (resizeViewport scenarioModel 1280 960).fx =
      scenarioModel.fx * (1280 / scenarioModel.width) ∧
    (resizeViewport scenarioModel 1280 960).fy =
      scenarioModel.fy * (960 / scenarioModel.height) ∧
    (resizeViewport scenarioModel 1280 960).u0 =
      scenarioModel.u0 * (1280 / scenarioModel.width) ∧
    (resizeViewport scenarioModel 1280 960).v0 =
      scenarioModel.v0 * (960 / scenarioModel.height) ∧
    (resizeViewport scenarioModel 1280 960).r1 =
      scenarioModel.r1 * min (1280 / scenarioModel.width) (960 / scenarioModel.height) ∧
    (resizeViewport scenarioModel 1280 960).r2 =
      scenarioModel.r2 * min (1280 / scenarioModel.width) (960 / scenarioModel.height) ∧
    (resizeViewport scenarioModel 1280 960).width = 1280 ∧
    (resizeViewport scenarioModel 1280 960).height = 960 :=
  resizeViewport_spec scenarioModel 1280 960 (by norm_num [scenarioModel])
    (by norm_num [scenarioModel])

/-- C5: pixelValidCircular is the strict open disk of radius r2 about the
principal point when r1 is at most 0, and the strict open annulus between
r1 and r2 when r1 is positive. -/
theorem pixelValidCircular_iff (ccd : IdealGenericCameraModel) (x y : ℝ) :
    (ccd.r1 ≤ 0 → (pixelValidCircular ccd x y = true ↔
      (x - ccd.u0) ^ 2 + (y - ccd.v0) ^ 2 < ccd.r2 ^ 2)) ∧
    (0 < ccd.r1 → (pixelValidCircular ccd x y = true ↔
      (ccd.r1 ^ 2 < (x - ccd.u0) ^ 2 + (y - ccd.v0) ^ 2 ∧
       (x - ccd.u0) ^ 2 + (y - ccd.v0) ^ 2 < ccd.r2 ^ 2))) := by
  constructor
  · intro h
    simp only [pixelValidCircular, if_pos h, ite_true_false_iff]
    constructor <;> intro h2 <;> nlinarith [h2]
  · intro h
    simp only [pixelValidCircular, if_neg (not_le.mpr h), ite_true_false_iff]
    constructor <;> intro h2 <;> constructor <;> nlinarith [h2.1, h2.2]


/-- C3: the unprojection routine computes exactly the closed form stated in
the specification (mx, my, s, term and the direction built from them), with
no iteration and no case analysis. -/
theorem inverse_eq_specForm (ccd : IdealGenericCameraModel) (x y : ℝ)
    (hfx : ccd.fx ≠ 0) (hfy : ccd.fy ≠ 0) :
    inverse ccd x y = inverseSpecForm ccd x y := by
  have key : ∀ e a b : ℝ,
      (e + Real.sqrt (1 + (1 - e * e) * (a * a + b * b))) / (a * a + b * b + 1) =
      (e + Real.sqrt (1 + (1 - e ^ 2) * (a ^ 2 + b ^ 2))) / (a ^ 2 + b ^ 2 + 1) := by
    intro e a b
    rw [show 1 + (1 - e * e) * (a * a + b * b) = 1 + (1 - e ^ 2) * (a ^ 2 + b ^ 2) from
          by ring,
        show a * a + b * b + 1 = a ^ 2 + b ^ 2 + 1 from by ring]
  simp only [inverse, inverseSpecForm, key]

/-- C3 witness: the routine and the closed form of the specification agree on
the fx = fy = 1, epsilon = 1/2 model at pixel (3, 4). -/
theorem inverse_eq_specForm_witness :
    inverse halfEpsModel 3 4 = inverseSpecForm halfEpsModel 3 4 :=
  inverse_eq_specForm halfEpsModel 3 4 (by norm_num [halfEpsModel])
    (by norm_num [halfEpsModel])

/-- Key algebraic identity behind the unit-sphere inverse: whenever q is a
square root of 1 + (1 - e^2) s with s = a^2 + b^2, the vector
(t a, t b, t - e) with t = (e + q)/(s + 1) has squared norm 1. -/
theorem unit_norm_identity (e a b q : ℝ)
    (hq2 : q ^ 2 = 1 + (1 - e * e) * (a * a + b * b)) :
    ((e + q) / (a * a + b * b + 1) * a) ^ 2 + ((e + q) / (a * a + b * b + 1) * b) ^ 2 +
      ((e + q) / (a * a + b * b + 1) - e) ^ 2 = 1 := by
  have hden : a * a + b * b + 1 ≠ 0 := by
    nlinarith [mul_self_nonneg a, mul_self_nonneg b]
  field_simp
  linear_combination (a * a + b * b + 1) * hq2

/-- C4: for epsilon between 0 and 1 the direction returned by the
unprojection has Euclidean norm exactly 1, with no re-normalization. -/
theorem inverse_norm_one (ccd : IdealGenericCameraModel) (x y : ℝ)
    (he0 : 0 ≤ ccd.epsilon) (he1 : ccd.epsilon ≤ 1)
    (hfx : ccd.fx ≠ 0) (hfy : ccd.fy ≠ 0) :
    (inverse ccd x y).norm = 1 := by
  have harg : 0 ≤ 1 + (1 - ccd.epsilon * ccd.epsilon) *
      (((x - ccd.u0) / ccd.fx) * ((x - ccd.u0) / ccd.fx) +
       ((y - ccd.v0) / ccd.fy) * ((y - ccd.v0) / ccd.fy)) := by
    have h1 : 0 ≤ 1 - ccd.epsilon * ccd.epsilon := by nlinarith
    have h2 : 0 ≤ ((x - ccd.u0) / ccd.fx) * ((x - ccd.u0) / ccd.fx) +
        ((y - ccd.v0) / ccd.fy) * ((y - ccd.v0) / ccd.fy) :=
      add_nonneg (mul_self_nonneg _) (mul_self_nonneg _)
    nlinarith [mul_nonneg h1 h2]
  have hsq : (inverse ccd x y).normSq = 1 := by
    simp only [inverse, PointT.normSq]
    exact unit_norm_identity ccd.epsilon ((x - ccd.u0) / ccd.fx) ((y - ccd.v0) / ccd.fy)
      (Real.sqrt _) (Real.sq_sqrt harg)
  rw [PointT.norm, hsq, Real.sqrt_one]

/-- C4 witness: on the fx = fy = 1, epsilon = 1/2 model the direction
unprojected from pixel (3, 4) is a unit vector. -/
theorem inverse_norm_one_witness : (inverse halfEpsModel 3 4).norm = 1 :=
  inverse_norm_one halfEpsModel 3 4 (by norm_num [halfEpsModel])
    (by norm_num [halfEpsModel]) (by norm_num [halfEpsModel])
    (by norm_num [halfEpsModel])


/-- C10: inside the unprojection the denominator s + 1 is at least 1 and, for
epsilon of magnitude at most 1, the square-root argument is at least 1; under
fx, fy nonzero and that epsilon bound the guarded unprojection takes no error
branch and agrees with the unguarded one, while a zero fx or fy (as in the
default-constructed all-zero model) makes the guarded unprojection fail. -/
theorem inverse_guards (ccd : IdealGenericCameraModel) (x y : ℝ) :
    (1 ≤ ((x - ccd.u0) / ccd.fx) * ((x - ccd.u0) / ccd.fx) +
         ((y - ccd.v0) / ccd.fy) * ((y - ccd.v0) / ccd.fy) + 1) ∧
    (|ccd.epsilon| ≤ 1 →
      1 ≤ 1 + (1 - ccd.epsilon * ccd.epsilon) *
        (((x - ccd.u0) / ccd.fx) * ((x - ccd.u0) / ccd.fx) +
         ((y - ccd.v0) / ccd.fy) * ((y - ccd.v0) / ccd.fy))) ∧
    (ccd.fx ≠ 0 → ccd.fy ≠ 0 → |ccd.epsilon| ≤ 1 →
      inverseChecked ccd x y = some (inverse ccd x y)) ∧
    (ccd.fx = 0 ∨ ccd.fy = 0 → inverseChecked ccd x y = none) ∧
    inverseChecked defaultModel x y = none := by
  have hs : 0 ≤ ((x - ccd.u0) / ccd.fx) * ((x - ccd.u0) / ccd.fx) +
      ((y - ccd.v0) / ccd.fy) * ((y - ccd.v0) / ccd.fy) :=
    add_nonneg (mul_self_nonneg _) (mul_self_nonneg _)
  have hargOf : |ccd.epsilon| ≤ 1 →
      1 ≤ 1 + (1 - ccd.epsilon * ccd.epsilon) *
        (((x - ccd.u0) / ccd.fx) * ((x - ccd.u0) / ccd.fx) +
         ((y - ccd.v0) / ccd.fy) * ((y - ccd.v0) / ccd.fy)) := by
    intro he
    rcases abs_le.mp he with ⟨hl, hr⟩
    have h1 : 0 ≤ 1 - ccd.epsilon * ccd.epsilon := by nlinarith
    nlinarith [mul_nonneg h1 hs]
  refine ⟨by linarith, hargOf, ?_, ?_, ?_⟩
  · intro hfx hfy he
    have harg := hargOf he
    simp only [inverseChecked]
    rw [if_neg hfx, if_neg hfy, if_neg (not_lt.mpr (by linarith)),
        if_neg (by nlinarith : ¬ (((x - ccd.u0) / ccd.fx) * ((x - ccd.u0) / ccd.fx) +
          ((y - ccd.v0) / ccd.fy) * ((y - ccd.v0) / ccd.fy) + 1 = 0))]
    rfl
  · rintro (h | h)
    · simp only [inverseChecked]
      rw [if_pos h]
    · by_cases hfx : ccd.fx = 0
      · simp only [inverseChecked]
        rw [if_pos hfx]
      · simp only [inverseChecked]
        rw [if_neg hfx, if_pos h]
  · simp only [inverseChecked]
    rw [if_pos (show defaultModel.fx = 0 from rfl)]


/-- A vector of squared norm 1 is its own normalization. -/
theorem normalized_of_normSq_one (v : PointT) (h : v.normSq = 1) :
    v.normalized = v := by
  simp only [PointT.normalized, PointT.norm, h, Real.sqrt_one, div_one]

/-- Normalization is invariant under scaling by a positive constant. -/
theorem normalized_smul (c : ℝ) (v : PointT) (hc : 0 < c) :
    (PointT.smul c v).normalized = v.normalized := by
  have hnorm : (PointT.smul c v).norm = c * v.norm := by
    simp only [PointT.norm, PointT.normSq, PointT.smul]
    rw [show (c * v.x) ^ 2 + (c * v.y) ^ 2 + (c * v.z) ^ 2 =
          c ^ 2 * (v.x ^ 2 + v.y ^ 2 + v.z ^ 2) from by ring,
        Real.sqrt_mul (sq_nonneg c), Real.sqrt_sq hc.le]
  simp only [PointT.normalized]
  rw [hnorm]
  simp only [PointT.smul]
  rw [mul_div_mul_left v.x v.norm hc.ne', mul_div_mul_left v.y v.norm hc.ne',
      mul_div_mul_left v.z v.norm hc.ne']

/-- C8: the projection normalizes its input, projects the unit vector by
dividing its first two components by z + epsilon and applies the affine
intrinsics; consequently it is invariant under positive rescaling of the ray
and maps the optical axis (0,0,1) to the principal point. -/
theorem forward_properties (ccd : IdealGenericCameraModel) (v : PointT) (c : ℝ)
    (hv : v ≠ ⟨0, 0, 0⟩) (hc : 0 < c) (he : 1 + ccd.epsilon ≠ 0) :
    forward ccd v =
      (ccd.fx * (v.normalized.x / (v.normalized.z + ccd.epsilon)) + ccd.u0,
       ccd.fy * (v.normalized.y / (v.normalized.z + ccd.epsilon)) + ccd.v0) ∧
    forward ccd (PointT.smul c v) = forward ccd v ∧
    forward ccd ⟨0, 0, 1⟩ = (ccd.u0, ccd.v0) := by
  refine ⟨rfl, ?_, ?_⟩
  · simp only [forward, normalized_smul c v hc]
  · have h001 : (⟨0, 0, 1⟩ : PointT).normalized = ⟨0, 0, 1⟩ :=
      normalized_of_normSq_one _ (by norm_num [PointT.normSq])
    simp [forward, h001]

/-- C8 witness: on the fx = fy = 1, epsilon = 1/2 model, doubling the ray
(1,2,2) leaves the projected pixel unchanged, and the optical axis projects
to the principal point. -/
theorem forward_properties_witness :
    forward halfEpsModel ⟨1, 2, 2⟩ =
      (halfEpsModel.fx * ((PointT.normalized ⟨1, 2, 2⟩).x /
          ((PointT.normalized ⟨1, 2, 2⟩).z + halfEpsModel.epsilon)) + halfEpsModel.u0,
       halfEpsModel.fy * ((PointT.normalized ⟨1, 2, 2⟩).y /
          ((PointT.normalized ⟨1, 2, 2⟩).z + halfEpsModel.epsilon)) + halfEpsModel.v0) ∧
    forward halfEpsModel (PointT.smul 2 ⟨1, 2, 2⟩) = forward halfEpsModel ⟨1, 2, 2⟩ ∧
    forward halfEpsModel ⟨0, 0, 1⟩ = (halfEpsModel.u0, halfEpsModel.v0) :=
  forward_properties halfEpsModel ⟨1, 2, 2⟩ 2
    (by norm_num [PointT.mk.injEq]) (by norm_num) (by norm_num [halfEpsModel])


/-- A nonzero 3-vector has positive squared norm. -/
theorem normSq_pos_of_ne_zero (v : PointT) (hv : v ≠ ⟨0, 0, 0⟩) : 0 < v.normSq := by
  rcases v with ⟨a, b, c⟩
  simp only [PointT.normSq]
  rcases lt_or_eq_of_le (by positivity : (0:ℝ) ≤ a ^ 2 + b ^ 2 + c ^ 2) with h | h
  · exact h
  · exfalso
    apply hv
    have ha : a = 0 := by nlinarith [sq_nonneg a, sq_nonneg b, sq_nonneg c]
    have hb : b = 0 := by nlinarith [sq_nonneg a, sq_nonneg b, sq_nonneg c]
    have hc : c = 0 := by nlinarith [sq_nonneg a, sq_nonneg b, sq_nonneg c]
    rw [ha, hb, hc]

/-- Normalizing a vector of positive squared norm yields a unit vector. -/
theorem normSq_normalized (v : PointT) (hv : 0 < v.normSq) :
    v.normalized.normSq = 1 := by
  have hnpos : 0 < v.norm := Real.sqrt_pos.mpr hv
  have hn2 : v.norm ^ 2 = v.normSq := Real.sq_sqrt hv.le
  simp only [PointT.normalized, PointT.normSq] at hn2 ⊢
  field_simp
  linarith [hn2]

/-- Core round-trip computation: unprojecting the projection of a unit vector
(x, y, z) with z + epsilon positive recovers (x, y, z) exactly. -/
theorem inverse_proj_unit (ccd : IdealGenericCameraModel) (x y z : ℝ)
    (hfx : ccd.fx ≠ 0) (hfy : ccd.fy ≠ 0)
    (he0 : 0 ≤ ccd.epsilon) (he1 : ccd.epsilon < 1)
    (hu : x ^ 2 + y ^ 2 + z ^ 2 = 1) (hw : 0 < z + ccd.epsilon) :
    inverse ccd (ccd.fx * (x / (z + ccd.epsilon)) + ccd.u0)
      (ccd.fy * (y / (z + ccd.epsilon)) + ccd.v0) = ⟨x, y, z⟩ := by
  have hwne : z + ccd.epsilon ≠ 0 := ne_of_gt hw
  have hmx : (ccd.fx * (x / (z + ccd.epsilon)) + ccd.u0 - ccd.u0) / ccd.fx =
      x / (z + ccd.epsilon) := by field_simp; ring
  have hmy : (ccd.fy * (y / (z + ccd.epsilon)) + ccd.v0 - ccd.v0) / ccd.fy =
      y / (z + ccd.epsilon) := by field_simp; ring
  have hz2 : z ^ 2 ≤ 1 := by nlinarith [sq_nonneg x, sq_nonneg y]
  have hzlow : -1 ≤ z := by nlinarith [sq_nonneg (z + 1)]
  have h1ez : 0 < 1 + ccd.epsilon * z := by
    nlinarith [mul_nonneg he0 (by linarith : (0:ℝ) ≤ z + 1)]
  have hargeq : 1 + (1 - ccd.epsilon * ccd.epsilon) *
      (x / (z + ccd.epsilon) * (x / (z + ccd.epsilon)) +
       y / (z + ccd.epsilon) * (y / (z + ccd.epsilon))) =
      ((1 + ccd.epsilon * z) / (z + ccd.epsilon)) ^ 2 := by
    field_simp
    linear_combination (1 - ccd.epsilon * ccd.epsilon) * (z + ccd.epsilon) ^ 2 * hu
  have hsqrt : Real.sqrt (1 + (1 - ccd.epsilon * ccd.epsilon) *
      (x / (z + ccd.epsilon) * (x / (z + ccd.epsilon)) +
       y / (z + ccd.epsilon) * (y / (z + ccd.epsilon)))) =
      (1 + ccd.epsilon * z) / (z + ccd.epsilon) := by
    rw [hargeq, Real.sqrt_sq (le_of_lt (div_pos h1ez hw))]
  have hterm : (ccd.epsilon + (1 + ccd.epsilon * z) / (z + ccd.epsilon)) /
      (x / (z + ccd.epsilon) * (x / (z + ccd.epsilon)) +
       y / (z + ccd.epsilon) * (y / (z + ccd.epsilon)) + 1) = z + ccd.epsilon := by
    have hden : x / (z + ccd.epsilon) * (x / (z + ccd.epsilon)) +
        y / (z + ccd.epsilon) * (y / (z + ccd.epsilon)) + 1 ≠ 0 := by
      nlinarith [mul_self_nonneg (x / (z + ccd.epsilon)),
        mul_self_nonneg (y / (z + ccd.epsilon))]
    rw [div_eq_iff hden]
    field_simp
    linear_combination (-(z + ccd.epsilon) ^ 2) * hu
  simp only [inverse, hmx, hmy, hsqrt, hterm]
  simp only [PointT.mk.injEq]
  refine ⟨?_, ?_, by ring⟩
  · rw [mul_comm, div_mul_cancel₀ x hwne]
  · rw [mul_comm, div_mul_cancel₀ y hwne]

/-- C2 (amended): for epsilon in [0,1), fx and fy nonzero and a nonzero ray d
whose direction satisfies z + epsilon norm(d) > 0 (the front sheet of the
projection), unprojecting the projected pixel returns exactly the normalized
d, so its normalization reproduces the normalized d. -/
theorem inverse_forward_roundtrip (ccd : IdealGenericCameraModel) (d : PointT)
    (hfx : ccd.fx ≠ 0) (hfy : ccd.fy ≠ 0)
    (he0 : 0 ≤ ccd.epsilon) (he1 : ccd.epsilon < 1)
    (hd : d ≠ ⟨0, 0, 0⟩) (hfront : 0 < d.z + ccd.epsilon * d.norm) :
    (inverse ccd (forward ccd d).1 (forward ccd d).2).normalized = d.normalized ∧
    inverse ccd (forward ccd d).1 (forward ccd d).2 = d.normalized := by
  have hsqpos : 0 < d.normSq := normSq_pos_of_ne_zero d hd
  have hnpos : 0 < d.norm := Real.sqrt_pos.mpr hsqpos
  have huSq : d.normalized.normSq = 1 := normSq_normalized d hsqpos
  have hu : d.normalized.x ^ 2 + d.normalized.y ^ 2 + d.normalized.z ^ 2 = 1 := huSq
  have hwz : 0 < d.normalized.z + ccd.epsilon := by
    have hrw : d.normalized.z + ccd.epsilon =
        (d.z + ccd.epsilon * d.norm) / d.norm := by
      simp only [PointT.normalized]
      field_simp
    rw [hrw]
    exact div_pos hfront hnpos
  have hkey := inverse_proj_unit ccd d.normalized.x d.normalized.y d.normalized.z
    hfx hfy he0 he1 hu hwz
  have hfwd1 : (forward ccd d).1 =
      ccd.fx * (d.normalized.x / (d.normalized.z + ccd.epsilon)) + ccd.u0 := rfl
  have hfwd2 : (forward ccd d).2 =
      ccd.fy * (d.normalized.y / (d.normalized.z + ccd.epsilon)) + ccd.v0 := rfl
  have heta : (⟨d.normalized.x, d.normalized.y, d.normalized.z⟩ : PointT) =
      d.normalized := rfl
  rw [hfwd1, hfwd2, hkey, heta]
  exact ⟨normalized_of_normSq_one d.normalized huSq, rfl⟩

/-- C2 witness: on the fx = fy = 1, epsilon = 1/2 model the ray (0,0,1)
round-trips exactly through forward then inverse. -/
theorem inverse_forward_roundtrip_witness :
    (inverse halfEpsModel (forward halfEpsModel ⟨0, 0, 1⟩).1
        (forward halfEpsModel ⟨0, 0, 1⟩).2).normalized =
      PointT.normalized ⟨0, 0, 1⟩ ∧
    inverse halfEpsModel (forward halfEpsModel ⟨0, 0, 1⟩).1
        (forward halfEpsModel ⟨0, 0, 1⟩).2 = PointT.normalized ⟨0, 0, 1⟩ :=
  inverse_forward_roundtrip halfEpsModel ⟨0, 0, 1⟩ (by norm_num [halfEpsModel])
    (by norm_num [halfEpsModel]) (by norm_num [halfEpsModel])
    (by norm_num [halfEpsModel]) (by norm_num [PointT.mk.injEq])
    (by norm_num [halfEpsModel, PointT.norm, PointT.normSq, Real.sqrt_one])

/-- C2 counterexample: on the fx = fy = 1, epsilon = 1/2 model the back ray
(0,0,-1) satisfies every hypothesis of the claim (epsilon in [0,1), fx, fy
nonzero, d nonzero), yet normalizing inverse(forward(d)) gives (0,0,1), not
the normalized d = (0,0,-1). -/
theorem inverse_forward_roundtrip_counterexample :
    (0 ≤ halfEpsModel.epsilon ∧ halfEpsModel.epsilon < 1 ∧
     halfEpsModel.fx ≠ 0 ∧ halfEpsModel.fy ≠ 0 ∧
     (⟨0, 0, -1⟩ : PointT) ≠ ⟨0, 0, 0⟩) ∧
    (inverse halfEpsModel (forward halfEpsModel ⟨0, 0, -1⟩).1
        (forward halfEpsModel ⟨0, 0, -1⟩).2).normalized ≠
      PointT.normalized ⟨0, 0, -1⟩ := by
  have hback : (⟨0, 0, -1⟩ : PointT).normalized = ⟨0, 0, -1⟩ :=
    normalized_of_normSq_one _ (by norm_num [PointT.normSq])
  have hfwd : forward halfEpsModel ⟨0, 0, -1⟩ = (0, 0) := by
    simp [forward, hback, halfEpsModel]
  have hinv : inverse halfEpsModel 0 0 = ⟨0, 0, 1⟩ := by
    simp only [inverse, halfEpsModel, mkModel_u0, mkModel_v0, mkModel_fx, mkModel_fy,
      mkModel_epsilon]
    norm_num [Real.sqrt_one]
  have hup : (⟨0, 0, 1⟩ : PointT).normalized = ⟨0, 0, 1⟩ :=
    normalized_of_normSq_one _ (by norm_num [PointT.normSq])
  refine ⟨⟨by norm_num [halfEpsModel], by norm_num [halfEpsModel],
    by norm_num [halfEpsModel], by norm_num [halfEpsModel],
    by norm_num [PointT.mk.injEq]⟩, ?_⟩
  rw [hfwd, hback]
  show (inverse halfEpsModel 0 0).normalized ≠ ⟨0, 0, -1⟩
  rw [hinv, hup]
  norm_num [PointT.mk.injEq]

end IdealGenericCameraModel

end camera
